import Mathlib

/-!
Shallow embedding of `src/misc/options.c` (Wine option parsing front end).

Tokens are modelled as `List Char` (C strings without the NUL terminator).
The table-driven argument scanner (`parse_options`), the in-place removal
and inheritance accumulation (`remove_options`, folded into the scanner as
the `eaten`/`inherit` components of `ScanOut`), the replay of the
`WINEOPTIONS` string (`inherit_options`), the message-filter grammar
(`do_debugmsg`) and the top-level driver (`OPTIONS_ParseOptions`) are
translated function by function.  Handlers are modelled at trace level:
the scanner records `(longname, value)` invocations in order; the
`runHandler` interpreter reproduces the process-terminating behaviour of
the in-file handlers (`do_help` / `do_version` via `OPTIONS_Usage`, which
calls `ExitProcess(0)`, and `do_debugmsg`, which calls `ExitProcess(1)` on
a syntax error).  Out-of-scope collaborator handlers
(`MODULE_AddLoadOrderOption`, `VERSION_Parse*`) have external effects only.
`Except Nat` models process termination with the given exit code;
allocation is assumed to succeed (`out_of_memory` never fires).
-/

namespace WineOptions

/-- A C string, without its terminating NUL. -/
abbrev Tok := List Char

/-- Convenience: the character list of a string literal. -/
def cs (s : String) : Tok := s.data

/-- `struct option_descr` from options.c lines 20-28, minus the handler
pointer and usage text: the handler is identified by `longname` in the
recorded trace.  `shortname = none` models the 0 short name. -/
structure OptionDescr where
  longname : Tok
  shortname : Option Char
  has_arg : Bool
  inherit : Bool
deriving Repr, DecidableEq

/-- `option_table` from options.c lines 57-75.  The NULL terminator entry
is the end of the Lean list. -/
def option_table : List OptionDescr :=
  [ ⟨cs "debugmsg", none,     true,  true⟩,
    ⟨cs "dll",      none,     true,  true⟩,
    ⟨cs "dosver",   none,     true,  true⟩,
    ⟨cs "help",     some 'h', false, false⟩,
    ⟨cs "managed",  none,     false, false⟩,
    ⟨cs "version",  some 'v', false, false⟩,
    ⟨cs "winver",   none,     true,  true⟩ ]

/-- `strchr (p, c)` as an index: position of the first occurrence of `c`. -/
def strchrIdx (c : Char) : Tok → Option Nat
  | [] => none
  | a :: rest => if a = c then some 0 else (strchrIdx c rest).map (· + 1)

/-- Split at the first `'='`: models `strchr (p, '=')` plus the pointer
arithmetic of options.c lines 241-253 (name part, value part). -/
def splitEq : Tok → Option (Tok × Tok)
  | [] => none
  | c :: rest =>
    if c = '=' then some ([], rest)
    else
      match splitEq rest with
      | none => none
      | some (a, b) => some (c :: a, b)

/-- Short-name lookup, options.c line 237: first table entry whose
`shortname` equals the character (0 short names never match because the
scanned character is non-NUL). -/
def findShort (c : Char) : Option OptionDescr :=
  option_table.find? (fun o => o.shortname = some c)

/-- Long-name lookup, options.c lines 244-256: for each descriptor in
table order, first the exact match (`strcmp`), then — only for
value-taking descriptors — the `--option=value` form, returning the
inline value. -/
def findLongIn : List OptionDescr → Tok → Option (OptionDescr × Option Tok)
  | [], _ => none
  | o :: rest, p =>
    if p = o.longname then some (o, none)
    else
      match splitEq p with
      | some (name, value) =>
        if o.has_arg ∧ name = o.longname then some (o, some value)
        else findLongIn rest p
      | none => findLongIn rest p

/-- Space-joining of tokens, as built by the `strcat` loop of
`remove_options` (options.c lines 214-218): single spaces between
consecutive tokens. -/
def joinSpace : List Tok → Tok
  | [] => []
  | [t] => t
  | t :: ts => t ++ ' ' :: joinSpace ts

/-- The inheritance side of `remove_options` (options.c lines 199-218):
append the space-joined consumed tokens to `inherit_str`, separated from
prior content by one space; allocate on first use (`none` models the
initial NULL pointer). -/
def foldInherit (inh : Option Tok) (toks : List Tok) : Option Tok :=
  match inh with
  | none => some (joinSpace toks)
  | some b => some (b ++ ' ' :: joinSpace toks)

/-- Result of matching one token against the table
(options.c lines 231-258). -/
inductive Decision
  | keep
  | stop
  | hit (o : OptionDescr) (equalarg : Option Tok)
deriving Repr, DecidableEq

/-- Token classification of `parse_options` (options.c lines 231-258):
non-`-` tokens are kept; `--` stops the scan; a single character after
the `-` is matched by short name; otherwise one further leading `-` is
stripped and the remainder matched by long name (with optional inline
`=value`).  An unmatched prefixed token is kept. -/
def decide_token (tok : Tok) : Decision :=
  match tok with
  | '-' :: p0 =>
    match p0 with
    | [d] =>
      if d = '-' then Decision.stop
      else
        match findShort d with
        | none => Decision.keep
        | some o => Decision.hit o none
    | _ =>
      let p1 := match p0 with
        | '-' :: q => q
        | _ => p0
      match findLongIn option_table p1 with
      | none => Decision.keep
      | some (o, e) => Decision.hit o e
  | _ => Decision.keep

/-- Outcome of a full scanning pass: the compacted argument vector, the
handler invocations `(longname, value)` in order, the inheritance buffer
(`inherit_str`), and the consumed tokens in order (what `remove_options`
removed). -/
structure ScanOut where
  argv : List Tok
  trace : List (Tok × Tok)
  inherit : Option Tok
  eaten : List Tok
deriving Repr, DecidableEq

/-- `parse_options` (options.c lines 224-277) together with the removal
side of `remove_options` (line 220): scan left to right; on a match
invoke the handler with the inline value, else the following token when
the descriptor takes a value and one exists, else the empty string;
remove the consumed 1 or 2 tokens (re-examining the same index, i.e.
continuing with the remainder) and fold them into the inheritance buffer
when the descriptor is inheritable; `--` stops the scan with everything
from it onwards kept. -/
def parse_options : List Tok → Option Tok → ScanOut
  | [], inh => ⟨[], [], inh, []⟩
  | tok :: rest, inh =>
    match decide_token tok with
    | Decision.stop => ⟨tok :: rest, [], inh, []⟩
    | Decision.keep =>
      let r := parse_options rest inh
      ⟨tok :: r.argv, r.trace, r.inherit, r.eaten⟩
    | Decision.hit o (some v) =>
      let r := parse_options rest (if o.inherit then foldInherit inh [tok] else inh)
      ⟨r.argv, (o.longname, v) :: r.trace, r.inherit, tok :: r.eaten⟩
    | Decision.hit o none =>
      if o.has_arg then
        match rest with
        | v :: rest2 =>
          let r := parse_options rest2 (if o.inherit then foldInherit inh [tok, v] else inh)
          ⟨r.argv, (o.longname, v) :: r.trace, r.inherit, tok :: v :: r.eaten⟩
        | [] =>
          let r := parse_options [] (if o.inherit then foldInherit inh [tok] else inh)
          ⟨r.argv, (o.longname, []) :: r.trace, r.inherit, tok :: r.eaten⟩
      else
        let r := parse_options rest (if o.inherit then foldInherit inh [tok] else inh)
        ⟨r.argv, (o.longname, []) :: r.trace, r.inherit, tok :: r.eaten⟩

/-- `strtok`-style splitting: cut at every delimiter occurrence, keeping
empty fields (raw form; `strtok` itself skips them, see `strtokAll`). -/
def splitOnAny (delims : List Char) : Tok → List Tok
  | [] => [[]]
  | c :: rest =>
    if c ∈ delims then [] :: splitOnAny delims rest
    else
      match splitOnAny delims rest with
      | [] => [[c]]
      | t :: ts => (c :: t) :: ts

/-- Repeated `strtok (s, delims)`: the nonempty fields, in order (strtok
collapses delimiter runs and skips leading/trailing delimiters). -/
def strtokAll (delims : List Char) (s : Tok) : List Tok :=
  (splitOnAny delims s).filter (fun t => t ≠ [])

/-- The split-point search of `do_debugmsg` (options.c lines 111-112):
the first `'+'`; only when the directive contains no `'+'` at all, the
first `'-'`. -/
def signIdx (opt : Tok) : Option Nat :=
  match strchrIdx '+' opt with
  | some i => some i
  | none => strchrIdx '-' opt

/-- `debug_class_names` (options.c line 96). -/
def debug_class_names : List Tok := [cs "fixme", cs "err", cs "warn", cs "trace"]

/-- The class-name lookup loop of `do_debugmsg` (options.c lines
116-127): exact match (length plus `memcmp`) against the fixed class
vocabulary, yielding the bit index. -/
def classIdx (s : Tok) : Option Nat :=
  if s = cs "fixme" then some 0
  else if s = cs "err" then some 1
  else if s = cs "warn" then some 2
  else if s = cs "trace" then some 3
  else none

/-- The two module-list subsystems (relay386.c / snoop.c lists). -/
inductive Subsys | relay | snoop
deriving Repr, DecidableEq

/-- Which of the two lists of a subsystem is replaced: `inc` for the
includelist (`+`), `exc` for the excludelist (`-`). -/
inductive ListPolarity | inc | exc
deriving Repr, DecidableEq

/-- One externally visible effect of `do_debugmsg`: either a module-list
replacement (the NULL end marker of the C array is the end of the Lean
list) or a `wine_dbg_add_option (selector, set, clear)` call; `set` and
`clear` are the `unsigned char` bit masks as naturals. -/
inductive DbgCall
  | setList (sub : Subsys) (pol : ListPolarity) (mods : List Tok)
  | addOption (selector : Tok) (set : Nat) (clear : Nat)
deriving Repr, DecidableEq

/-- `_strupr`: ASCII upper-casing of a copied string. -/
def strupr (s : Tok) : Tok := s.map Char.toUpper

/-- Processing of one comma-separated directive by the `do ... while`
body of `do_debugmsg` (options.c lines 108-180).  `.error ()` is the
`goto error` path (syntax message plus `ExitProcess(1)`).  Notes kept
faithful to the source: the split point is `signIdx`; `~0` truncated to
`unsigned char` is 255; in the module-list branch `set`/`clear` are
reassigned to `~0`/`0` regardless of the sign, the list is chosen by the
sign and by the literal lowercase `'r'` test on the character after the
sign, and `*(p + 6) = '\0'` truncates the directive so that the
following `wine_dbg_add_option` call sees the keyword (first five
characters after the sign) as its selector.  Since `strtok` already cut
at commas, `strchr (p, ',')` never fires and the length used for the
last component is the remainder of the directive. -/
def processDirective (opt : Tok) : Except Unit (List DbgCall) :=
  match signIdx opt with
  | none => Except.error ()
  | some i =>
    let sign := opt.getD i ' '
    let before := opt.take i
    let after := opt.drop (i + 1)
    if after = [] then Except.error ()
    else if before ≠ [] then
      match classIdx before with
      | none => Except.error ()
      | some k =>
        let set := if sign = '+' then 2 ^ k else 0
        let clear := if sign = '+' then 0 else 2 ^ k
        let sel := if after = cs "all" then [] else after
        Except.ok [DbgCall.addOption sel set clear]
    else
      if (after.take 6).map Char.toLower = cs "relay=" ∨
         (after.take 6).map Char.toLower = cs "snoop=" then
        let sub := if after.getD 0 ' ' = 'r' then Subsys.relay else Subsys.snoop
        let pol := if sign = '+' then ListPolarity.inc else ListPolarity.exc
        let mods := (splitOnAny [':'] (after.drop 6)).map strupr
        let kw := after.take 5
        let sel := if kw = cs "all" then [] else kw
        Except.ok [DbgCall.setList sub pol mods, DbgCall.addOption sel 255 0]
      else
        let set := if sign = '+' then 255 else 0
        let clear := if sign = '+' then 0 else 255
        let sel := if after = cs "all" then [] else after
        Except.ok [DbgCall.addOption sel set clear]

/-- Left-to-right processing of all directives, stopping at the first
syntax error. -/
def processDirectives : List Tok → Except Unit (List DbgCall)
  | [] => Except.ok []
  | o :: os =>
    match processDirective o with
    | Except.error e => Except.error e
    | Except.ok calls =>
      match processDirectives os with
      | Except.error e => Except.error e
      | Except.ok more => Except.ok (calls ++ more)

/-- `do_debugmsg` (options.c lines 94-194): split the argument at commas
with `strtok` (an argument consisting only of commas, or empty, yields no
first token and is a syntax error), then process each directive.
`.error ()` is `ExitProcess(1)` after the syntax message. -/
def do_debugmsg (arg : Tok) : Except Unit (List DbgCall) :=
  match strtokAll [','] arg with
  | [] => Except.error ()
  | opts => processDirectives opts

/-- Process-exit behaviour of one handler invocation, keyed by the
descriptor's long name: `do_help` prints usage and `OPTIONS_Usage` calls
`ExitProcess(0)`; `do_version` calls `ExitProcess(0)`; `do_debugmsg`
calls `ExitProcess(1)` on a malformed argument; the remaining handlers
(`do_managed` and the external collaborators) return normally. -/
def runHandler (name value : Tok) : Except Nat Unit :=
  if name = cs "help" then Except.error 0
  else if name = cs "version" then Except.error 0
  else if name = cs "debugmsg" then
    match do_debugmsg value with
    | Except.ok _ => Except.ok ()
    | Except.error _ => Except.error 1
  else Except.ok ()

/-- Run the recorded handler invocations in order; the first
process-terminating one wins (it fired during the scan, before anything
later). -/
def runTrace : List (Tok × Tok) → Except Nat Unit
  | [] => Except.ok ()
  | (n, v) :: rest =>
    match runHandler n v with
    | Except.error e => Except.error e
    | Except.ok _ => runTrace rest

/-- `inherit_options` (options.c lines 280-298), scanning part: tokenize
the buffer on space/tab runs with `strtok`, keep at most 255 tokens (the
`argv[256]` bound with its NULL sentinel), and feed them through
`parse_options`.  The removals hit the throwaway local array, but the
inheritance folding hits the same global buffer. -/
def inherit_options (buffer : Tok) (inh : Option Tok) : ScanOut :=
  parse_options ((strtokAll [' ', '\t'] buffer).take 255) inh

/-- Full outcome of the replay: handler terminations fire during the
scan; afterwards any remaining token is the fatal `Unknown option ... in
WINEOPTIONS variable` path, which prints usage — and `OPTIONS_Usage`
exits with code 0. -/
def replayOutcome (buffer : Tok) (inh : Option Tok) : Except Nat (Option Tok) :=
  let r := inherit_options buffer inh
  match runTrace r.trace with
  | Except.error e => Except.error e
  | Except.ok _ => if r.argv = [] then Except.ok r.inherit else Except.error 0

/-- The leftover check of `OPTIONS_ParseOptions` (options.c lines
330-342): a `--` token is removed and ends the check; any other token
starting with `-` is the fatal unknown-option path (message plus
`OPTIONS_Usage`, which calls `ExitProcess(0)`). -/
def finalCheck : List Tok → Except Nat (List Tok)
  | [] => Except.ok []
  | t :: rest =>
    if t = cs "--" then Except.ok rest
    else if t.head? = some '-' then Except.error 0
    else
      match finalCheck rest with
      | Except.error e => Except.error e
      | Except.ok l => Except.ok (t :: l)

/-- `OPTIONS_ParseOptions` (options.c lines 317-348) on the argument
tokens after the program name: optional replay of the `WINEOPTIONS`
string (absent or empty means skip), then the live scanning pass seeded
with the inheritance buffer the replay produced, then the leftover
check.  The result is the application argv (the final
`SetEnvironmentVariableA` write and the argc count are external). -/
def OPTIONS_ParseOptions (env : Option Tok) (args : List Tok) : Except Nat (List Tok) :=
  let step1 : Except Nat (Option Tok) :=
    match env with
    | none => Except.ok none
    | some buf => if buf = [] then Except.ok none else replayOutcome buf none
  match step1 with
  | Except.error e => Except.error e
  | Except.ok inh0 =>
    let r := parse_options args inh0
    match runTrace r.trace with
    | Except.error e => Except.error e
    | Except.ok _ => finalCheck r.argv

/-- Modelled from the spec: the split point the spec describes for a
filter directive — the first occurrence, in left-to-right order, of
either `+` or `-` (to be compared with the source's `signIdx`). -/
def spec_first_sign : Tok → Option Nat
  | [] => none
  | c :: rest =>
    if c = '+' ∨ c = '-' then some 0 else (spec_first_sign rest).map (· + 1)

/-- A canonical long-form trigger token `--name`. -/
def dashdash (n : Tok) : Tok := '-' :: '-' :: n

/-- Long names of the inheritable table entries (all of which take a
value). -/
def inheritableNames : List Tok := [cs "debugmsg", cs "dll", cs "dosver", cs "winver"]

/-- Render a list of (inheritable option, value) pairs as an argv in
separate-token form. -/
def tokensOfPairs : List (Tok × Tok) → List Tok
  | [] => []
  | (n, v) :: ps => dashdash n :: v :: tokensOfPairs ps

/-- The inheritance buffer after folding a list of separate-token pairs
in order. -/
def foldPairs (inh : Option Tok) : List (Tok × Tok) → Option Tok
  | [] => inh
  | (n, v) :: ps => foldPairs (foldInherit inh [dashdash n, v]) ps

/-- Does the leftover check hit an unknown (`-`-prefixed, non-`--`)
token? -/
def hasUnknown : List Tok → Bool
  | [] => false
  | t :: rest =>
    if t = cs "--" then false
    else if t.head? = some '-' then true
    else hasUnknown rest

end WineOptions

deriving instance DecidableEq for Except

namespace WineOptions

/-! Unfolding lemmas for the scanner, one per control path of the C loop. -/

theorem parse_options_nil (inh : Option Tok) : parse_options [] inh = ⟨[], [], inh, []⟩ := rfl

theorem parse_options_stop (tok : Tok) (rest : List Tok) (inh : Option Tok)
    (h : decide_token tok = Decision.stop) :
    parse_options (tok :: rest) inh = ⟨tok :: rest, [], inh, []⟩ := by
  simp only [parse_options, h]

theorem parse_options_keep (tok : Tok) (rest : List Tok) (inh : Option Tok)
    (h : decide_token tok = Decision.keep) :
    parse_options (tok :: rest) inh =
      ⟨tok :: (parse_options rest inh).argv, (parse_options rest inh).trace,
       (parse_options rest inh).inherit, (parse_options rest inh).eaten⟩ := by
  simp only [parse_options, h]

theorem parse_options_hit_eq (tok : Tok) (rest : List Tok) (inh : Option Tok)
    (o : OptionDescr) (v : Tok) (h : decide_token tok = Decision.hit o (some v)) :
    parse_options (tok :: rest) inh =
      (let r := parse_options rest (if o.inherit then foldInherit inh [tok] else inh)
       ⟨r.argv, (o.longname, v) :: r.trace, r.inherit, tok :: r.eaten⟩) := by
  simp only [parse_options, h]

theorem parse_options_hit_val (tok : Tok) (v : Tok) (rest2 : List Tok) (inh : Option Tok)
    (o : OptionDescr) (h : decide_token tok = Decision.hit o none) (ha : o.has_arg = true) :
    parse_options (tok :: v :: rest2) inh =
      (let r := parse_options rest2 (if o.inherit then foldInherit inh [tok, v] else inh)
       ⟨r.argv, (o.longname, v) :: r.trace, r.inherit, tok :: v :: r.eaten⟩) := by
  simp only [parse_options, h, ha, if_true]

theorem parse_options_hit_last (tok : Tok) (inh : Option Tok)
    (o : OptionDescr) (h : decide_token tok = Decision.hit o none) (ha : o.has_arg = true) :
    parse_options [tok] inh =
      (let r := parse_options [] (if o.inherit then foldInherit inh [tok] else inh)
       ⟨r.argv, (o.longname, []) :: r.trace, r.inherit, tok :: r.eaten⟩) := by
  simp only [parse_options, h, ha, if_true]

theorem parse_options_hit_noval (tok : Tok) (rest : List Tok) (inh : Option Tok)
    (o : OptionDescr) (h : decide_token tok = Decision.hit o none) (ha : o.has_arg = false) :
    parse_options (tok :: rest) inh =
      (let r := parse_options rest (if o.inherit then foldInherit inh [tok] else inh)
       ⟨r.argv, (o.longname, []) :: r.trace, r.inherit, tok :: r.eaten⟩) := by
  cases rest <;> simp only [parse_options, h, ha, if_false, Bool.false_eq_true]

/-! General facts about the scanning pass. -/

theorem decide_token_of_head (t : Tok) (h : t.head? ≠ some '-') :
    decide_token t = Decision.keep := by
  match t with
  | [] => rfl
  | c :: p0 =>
    have hc : c ≠ '-' := by simpa using h
    rw [decide_token.eq_def]
    split
    · next heq => injection heq with h1 _; exact absurd h1 hc
    · rfl

theorem parse_argv_sublist (argv : List Tok) (inh : Option Tok) :
    ((parse_options argv inh).argv).Sublist argv := by
  induction argv, inh using parse_options.induct with
  | case1 inh => simp [parse_options_nil]
  | case2 tok rest inh h => simp [parse_options_stop _ _ _ h]
  | case3 tok rest inh h ih =>
    rw [parse_options_keep _ _ _ h]
    exact List.Sublist.cons₂ tok ih
  | case4 tok rest inh o v h ih =>
    rw [parse_options_hit_eq _ _ _ _ _ h]
    exact ih.trans (List.sublist_cons_self tok rest)
  | case5 tok inh o h ha v rest2 ih =>
    rw [parse_options_hit_val _ _ _ _ _ h ha]
    exact ih.trans ((List.sublist_cons_self v rest2).trans (List.sublist_cons_self tok (v :: rest2)))
  | case6 tok inh o h ha ih =>
    rw [parse_options_hit_last _ _ _ h ha]
    simp [parse_options_nil]
  | case7 tok rest inh o h ha ih =>
    rw [parse_options_hit_noval _ _ _ _ h (by simpa using ha)]
    exact ih.trans (List.sublist_cons_self tok rest)

theorem parse_eaten_perm (argv : List Tok) (inh : Option Tok) :
    ((parse_options argv inh).eaten ++ (parse_options argv inh).argv).Perm argv := by
  induction argv, inh using parse_options.induct with
  | case1 inh => simp [parse_options_nil]
  | case2 tok rest inh h => simp [parse_options_stop _ _ _ h]
  | case3 tok rest inh h ih =>
    rw [parse_options_keep _ _ _ h]
    exact List.perm_middle.trans (ih.cons tok)
  | case4 tok rest inh o v h ih =>
    rw [parse_options_hit_eq _ _ _ _ _ h]
    exact ih.cons tok
  | case5 tok inh o h ha v rest2 ih =>
    rw [parse_options_hit_val _ _ _ _ _ h ha]
    exact (ih.cons v).cons tok
  | case6 tok inh o h ha ih =>
    rw [parse_options_hit_last _ _ _ h ha]
    simp [parse_options_nil]
  | case7 tok rest inh o h ha ih =>
    rw [parse_options_hit_noval _ _ _ _ h (by simpa using ha)]
    exact ih.cons tok

theorem parse_no_dash (argv : List Tok) (inh : Option Tok)
    (h : ∀ t ∈ argv, t.head? ≠ some '-') :
    parse_options argv inh = ⟨argv, [], inh, []⟩ := by
  induction argv with
  | nil => rfl
  | cons tok rest ih =>
    have hk : decide_token tok = Decision.keep :=
      decide_token_of_head tok (h tok (by simp))
    rw [parse_options_keep _ _ _ hk, ih (fun t ht => h t (by simp [ht]))]

/-! Scanning a canonical sequence of inheritable (option, value) pairs. -/

theorem decide_token_inheritable (n : Tok) (hn : n ∈ inheritableNames) :
    decide_token (dashdash n) = Decision.hit ⟨n, none, true, true⟩ none := by
  fin_cases hn <;> decide

theorem scan_pairs (ps : List (Tok × Tok)) (inh : Option Tok)
    (h : ∀ p ∈ ps, p.1 ∈ inheritableNames) :
    parse_options (tokensOfPairs ps) inh = ⟨[], ps, foldPairs inh ps, tokensOfPairs ps⟩ := by
  induction ps generalizing inh with
  | nil => rfl
  | cons p ps ih =>
    obtain ⟨n, v⟩ := p
    have hn : n ∈ inheritableNames := h (n, v) (by simp)
    have hd := decide_token_inheritable n hn
    show parse_options (dashdash n :: v :: tokensOfPairs ps) inh = _
    rw [parse_options_hit_val _ _ _ _ _ hd rfl]
    simp only [ih _ (fun q hq => h q (by simp [hq]))]
    rfl

/-! Joining tokens with spaces and re-splitting them with strtok. -/

theorem splitOnAny_clean_append (delims : List Char) (a l : Tok) (t : Tok) (ts : List Tok)
    (ha : ∀ c ∈ a, c ∉ delims) (hl : splitOnAny delims l = t :: ts) :
    splitOnAny delims (a ++ l) = (a ++ t) :: ts := by
  induction a with
  | nil => simpa using hl
  | cons c a iha =>
    have hc : c ∉ delims := ha c (by simp)
    have h3 := iha (fun x hx => ha x (by simp [hx]))
    simp only [List.cons_append, splitOnAny, if_neg hc]
    rw [show List.append a l = a ++ l from rfl, h3]

theorem strtokAll_joinSpace (toks : List Tok)
    (h : ∀ t ∈ toks, t ≠ [] ∧ ∀ c ∈ t, c ∉ ([' ', '\t'] : List Char)) :
    strtokAll [' ', '\t'] (joinSpace toks) = toks := by
  induction toks with
  | nil => rfl
  | cons t ts ih =>
    obtain ⟨hne, hcl⟩ := h t (by simp)
    cases ts with
    | nil =>
      show strtokAll [' ', '\t'] t = [t]
      have happ := splitOnAny_clean_append [' ', '\t'] t [] [] [] hcl rfl
      simp only [List.append_nil] at happ
      simp [strtokAll, happ, hne]
    | cons t' ts' =>
      have hni := ih (fun q hq => h q (by simp [hq]))
      show strtokAll [' ', '\t'] (t ++ ' ' :: joinSpace (t' :: ts')) = t :: t' :: ts'
      rcases hrec : splitOnAny [' ', '\t'] (joinSpace (t' :: ts')) with _ | ⟨u, us⟩
      · exfalso
        rw [strtokAll, hrec] at hni
        simp at hni
      · have hsp : splitOnAny [' ', '\t'] (' ' :: joinSpace (t' :: ts')) = [] :: u :: us := by
          simp [splitOnAny, hrec]
        have happ := splitOnAny_clean_append [' ', '\t'] t (' ' :: joinSpace (t' :: ts')) []
            (u :: us) hcl hsp
        rw [strtokAll, happ]
        rw [strtokAll, hrec] at hni
        simp only [List.append_nil]
        rw [List.filter_cons_of_pos (by simp [hne]), hni]

theorem joinSpace_append_cons (a c : Tok) (rest : List Tok) :
    joinSpace ((a ++ ' ' :: c) :: rest) = a ++ ' ' :: joinSpace (c :: rest) := by
  cases rest with
  | nil => rfl
  | cons r rs => simp [joinSpace]

theorem foldPairs_some (ps : List (Tok × Tok)) (b : Tok) :
    foldPairs (some b) ps = some (joinSpace (b :: tokensOfPairs ps)) := by
  induction ps generalizing b with
  | nil => rfl
  | cons p ps ih =>
    obtain ⟨n, v⟩ := p
    show foldPairs (foldInherit (some b) [dashdash n, v]) ps = _
    rw [show foldInherit (some b) [dashdash n, v]
          = some (b ++ ' ' :: (dashdash n ++ ' ' :: v)) from rfl]
    rw [ih, joinSpace_append_cons, joinSpace_append_cons]
    rfl

theorem foldPairs_none (ps : List (Tok × Tok)) (h : ps ≠ []) :
    foldPairs none ps = some (joinSpace (tokensOfPairs ps)) := by
  cases ps with
  | nil => cases h rfl
  | cons p ps =>
    obtain ⟨n, v⟩ := p
    show foldPairs (foldInherit none [dashdash n, v]) ps = _
    rw [show foldInherit none [dashdash n, v] = some (dashdash n ++ ' ' :: v) from rfl]
    rw [foldPairs_some, joinSpace_append_cons]
    rfl

theorem tokensOfPairs_clean : ∀ ps : List (Tok × Tok),
    (∀ p ∈ ps, p.1 ∈ inheritableNames) →
    (∀ p ∈ ps, p.2 ≠ [] ∧ ∀ c ∈ p.2, c ≠ ' ' ∧ c ≠ '\t') →
    ∀ t ∈ tokensOfPairs ps, t ≠ [] ∧ ∀ c ∈ t, c ∉ ([' ', '\t'] : List Char) := by
  intro ps
  induction ps with
  | nil => intro _ _ t ht; simp [tokensOfPairs] at ht
  | cons p ps ih =>
    intro h1 h2 t ht
    obtain ⟨n, v⟩ := p
    have hn : n ∈ inheritableNames := h1 (n, v) (by simp)
    obtain ⟨hv1, hv2⟩ := h2 (n, v) (by simp)
    rw [show tokensOfPairs ((n, v) :: ps) = dashdash n :: v :: tokensOfPairs ps from rfl] at ht
    rcases List.mem_cons.mp ht with rfl | ht
    · refine ⟨by simp [dashdash], ?_⟩
      fin_cases hn <;> decide
    · rcases List.mem_cons.mp ht with rfl | ht
      · exact ⟨hv1, fun c hc => by simpa using hv2 c hc⟩
      · exact ih (fun q hq => h1 q (by simp [hq])) (fun q hq => h2 q (by simp [hq])) t ht

theorem tokensOfPairs_length (ps : List (Tok × Tok)) :
    (tokensOfPairs ps).length = 2 * ps.length := by
  induction ps with
  | nil => rfl
  | cons p ps ih =>
    obtain ⟨n, v⟩ := p
    show (dashdash n :: v :: tokensOfPairs ps).length = 2 * (ps.length + 1)
    simp [ih]
    omega

/-! The leftover check and the strchr index. -/

theorem finalCheck_unknown : ∀ l : List Tok, hasUnknown l = true → finalCheck l = Except.error 0 := by
  intro l
  induction l with
  | nil => intro h; simp [hasUnknown] at h
  | cons t rest ih =>
    intro h
    rw [hasUnknown] at h
    by_cases h1 : t = cs "--"
    · rw [if_pos h1] at h; cases h
    · rw [if_neg h1] at h
      by_cases h2 : t.head? = some '-'
      · rw [finalCheck, if_neg h1, if_pos h2]
      · rw [if_neg h2] at h
        rw [finalCheck, if_neg h1, if_neg h2, ih h]

theorem strchrIdx_eq_none (c : Char) (l : Tok) : strchrIdx c l = none ↔ c ∉ l := by
  induction l with
  | nil => simp [strchrIdx]
  | cons a rest ih =>
    rw [strchrIdx]
    by_cases h : a = c
    · simp [h]
    · rw [if_neg h]
      constructor
      · intro hmap
        have hnone : strchrIdx c rest = none := by
          rcases hrec : strchrIdx c rest with _ | j
          · rfl
          · rw [hrec] at hmap; cases hmap
        intro hmem
        rcases List.mem_cons.mp hmem with hc | hc
        · exact h hc.symm
        · exact (ih.mp hnone) hc
      · intro hmem
        rw [ih.mpr (fun hc => hmem (List.mem_cons_of_mem a hc))]
        rfl

/-- A class-less directive whose split point is position 0 and whose rest
matches a module-list keyword: the list replacement plus the
fall-through `wine_dbg_add_option` call. -/
theorem processDirective_module (sign : Char) (after : Tok)
    (hsi : signIdx (sign :: after) = some 0)
    (hne : after ≠ [])
    (hcond : (after.take 6).map Char.toLower = cs "relay=" ∨
             (after.take 6).map Char.toLower = cs "snoop=")
    (hall : after.take 5 ≠ cs "all") :
    processDirective (sign :: after) =
      Except.ok [DbgCall.setList
                   (if after.getD 0 ' ' = 'r' then Subsys.relay else Subsys.snoop)
                   (if sign = '+' then ListPolarity.inc else ListPolarity.exc)
                   ((splitOnAny [':'] (after.drop 6)).map strupr),
                 DbgCall.addOption (after.take 5) 255 0] := by
  simp only [processDirective, hsi, List.getD_cons_zero, List.take_zero,
             List.drop_succ_cons, List.drop_zero]
  rw [if_neg hne]
  rw [if_neg (show ¬ (([] : Tok) ≠ []) from fun h => h rfl)]
  rw [if_pos hcond]
  rw [if_neg hall]

end WineOptions

namespace WineOptions

/-- C1 (amended): round-trip of inheritance holds for argv built from
inheritable options in separate-token form whose values are nonempty and
free of spaces and tabs, with at most 255 tokens in total: scanning once
yields a flushed buffer whose replay through a fresh scanner records the
same (handler, value) trace in the same order and leaves no unconsumed
token.  (The unrestricted claim fails: a value containing a space is
re-tokenized at the space during replay, see the counterexample.) -/
theorem C1_round_trip (ps : List (Tok × Tok))
    (h1 : ∀ p ∈ ps, p.1 ∈ inheritableNames)
    (h2 : ∀ p ∈ ps, p.2 ≠ [] ∧ ∀ c ∈ p.2, c ≠ ' ' ∧ c ≠ '\t')
    (h3 : 2 * ps.length ≤ 255)
    (h4 : ps ≠ []) :
    ∃ buf, (parse_options (tokensOfPairs ps) none).inherit = some buf ∧
      (parse_options (tokensOfPairs ps) none).trace = ps ∧
      (inherit_options buf none).trace = ps ∧
      (inherit_options buf none).argv = [] := by
  have hscan := scan_pairs ps none h1
  have hclean := tokensOfPairs_clean ps h1 h2
  have hjoin := strtokAll_joinSpace (tokensOfPairs ps) hclean
  have htake : (strtokAll [' ', '\t'] (joinSpace (tokensOfPairs ps))).take 255
      = tokensOfPairs ps := by
    rw [hjoin]
    exact List.take_of_length_le (by rw [tokensOfPairs_length]; exact h3)
  refine ⟨joinSpace (tokensOfPairs ps), ?_, ?_, ?_, ?_⟩
  · rw [hscan]
    exact foldPairs_none ps h4
  · rw [hscan]
  · rw [inherit_options, htake, hscan]
  · rw [inherit_options, htake, hscan]

/-- C1 witness: one `--dll foo` pair round-trips. -/
theorem C1_round_trip_witness :
    ∃ buf, (parse_options (tokensOfPairs [(cs "dll", cs "foo")]) none).inherit = some buf ∧
      (parse_options (tokensOfPairs [(cs "dll", cs "foo")]) none).trace
        = [(cs "dll", cs "foo")] ∧
      (inherit_options buf none).trace = [(cs "dll", cs "foo")] ∧
      (inherit_options buf none).argv = [] :=
  C1_round_trip [(cs "dll", cs "foo")] (by decide) (by decide) (by decide) (by decide)

/-- C1 counterexample: the argv `["--dll", "a b"]` consists only of an
inheritable option with its value, and the live pass hands the dll
handler the value `"a b"`; but replaying the flushed buffer
`"--dll a b"` splits at the embedded space, invokes the handler with
`"a"` instead, and leaves the unconsumed token `"b"`. -/
theorem C1_round_trip_counterexample :
    (parse_options [cs "--dll", cs "a b"] none).trace = [(cs "dll", cs "a b")] ∧
    (parse_options [cs "--dll", cs "a b"] none).inherit = some (cs "--dll a b") ∧
    (inherit_options (cs "--dll a b") none).trace = [(cs "dll", cs "a")] ∧
    (inherit_options (cs "--dll a b") none).argv = [cs "b"] := by
  refine ⟨by decide, by decide, by decide, by decide⟩

/-- C2 (amended): when the scan completes without a handler terminating
the process and a `-`-prefixed token other than `--` survives unmatched,
the process prints the unknown-option message and usage and terminates
with exit code 0 (`OPTIONS_Usage` calls `ExitProcess(0)`), not 1. -/
theorem C2_unknown_exits_zero (args : List Tok)
    (hok : runTrace (parse_options args none).trace = Except.ok ())
    (hua : hasUnknown (parse_options args none).argv = true) :
    OPTIONS_ParseOptions none args = Except.error 0 := by
  show (match runTrace (parse_options args none).trace with
        | Except.error e => Except.error e
        | Except.ok _ => finalCheck (parse_options args none).argv) = Except.error 0
  rw [hok]
  exact finalCheck_unknown _ hua

/-- C2 witness: the surviving unknown option `-x` exits with code 0. -/
theorem C2_unknown_exits_zero_witness :
    OPTIONS_ParseOptions none [cs "-x"] = Except.error 0 :=
  C2_unknown_exits_zero [cs "-x"] (by decide) (by decide)

/-- C2 counterexample: for argv `["-x"]` the token `-x` survives the
pass unmatched, and the process exits with code 0, not 1 as claimed
(exit code 0 is not reserved for help/version: the usage path shares
it). -/
theorem C2_counterexample :
    OPTIONS_ParseOptions none [cs "-x"] = Except.error 0 ∧
    OPTIONS_ParseOptions none [cs "-x"] ≠ Except.error 1 := by
  refine ⟨by decide, by decide⟩

/-- C3 (amended): a class-less directive whose rest begins
(case-insensitively) with `relay=` or `snoop=` replaces the module list
selected by the sign (`+` include, `-` exclude) and by the literal,
case-sensitive second character (`'r'` selects relay, anything else
snoop), and then — contrary to the original claim — still forwards
exactly one (classes-to-set, classes-to-clear, selector) call: selector
is the keyword text before the `=`, with all class bits set and none
cleared, regardless of the sign. -/
theorem C3_module_directive (sign : Char) (kw rest : Tok)
    (hs : sign = '+' ∨ sign = '-')
    (hk : kw.map Char.toLower = cs "relay" ∨ kw.map Char.toLower = cs "snoop")
    (hr : sign = '-' → '+' ∉ rest) :
    processDirective (sign :: (kw ++ '=' :: rest)) =
      Except.ok [DbgCall.setList
                   (if kw.getD 0 ' ' = 'r' then Subsys.relay else Subsys.snoop)
                   (if sign = '+' then ListPolarity.inc else ListPolarity.exc)
                   ((splitOnAny [':'] rest).map strupr),
                 DbgCall.addOption kw 255 0] := by
  have hknp : '+' ∉ kw := by
    intro hm
    have h2 : Char.toLower '+' ∈ kw.map Char.toLower := List.mem_map_of_mem _ hm
    rcases hk with hk | hk <;> rw [hk] at h2 <;> exact absurd h2 (by decide)
  have hk5 : kw.length = 5 := by
    rcases hk with hk | hk <;>
      simpa [cs] using congrArg List.length hk
  rcases kw with _ | ⟨k0, _ | ⟨k1, _ | ⟨k2, _ | ⟨k3, _ | ⟨k4, _ | ⟨k5, kwr⟩⟩⟩⟩⟩⟩ <;> first
    | (exfalso; simp only [List.length_nil, List.length_cons] at hk5; omega)
    | skip
  have he : (Char.toLower k0 = 'r' ∧ Char.toLower k1 = 'e' ∧ Char.toLower k2 = 'l' ∧
             Char.toLower k3 = 'a' ∧ Char.toLower k4 = 'y') ∨
            (Char.toLower k0 = 's' ∧ Char.toLower k1 = 'n' ∧ Char.toLower k2 = 'o' ∧
             Char.toLower k3 = 'o' ∧ Char.toLower k4 = 'p') := by
    rcases hk with hk | hk
    · left
      rw [show cs "relay" = ['r', 'e', 'l', 'a', 'y'] from rfl] at hk
      simp only [List.map_cons, List.map_nil, List.cons.injEq, and_true] at hk
      exact hk
    · right
      rw [show cs "snoop" = ['s', 'n', 'o', 'o', 'p'] from rfl] at hk
      simp only [List.map_cons, List.map_nil, List.cons.injEq, and_true] at hk
      exact hk
  have hall : ([k0, k1, k2, k3, k4] : Tok) ≠ cs "all" := by
    intro h
    have := congrArg List.length h
    simp [cs] at this
  have hcond : (((k0 :: k1 :: k2 :: k3 :: k4 :: []) ++ '=' :: rest).take 6).map Char.toLower
        = cs "relay=" ∨
      (((k0 :: k1 :: k2 :: k3 :: k4 :: []) ++ '=' :: rest).take 6).map Char.toLower
        = cs "snoop=" := by
    rcases he with ⟨e0, e1, e2, e3, e4⟩ | ⟨e0, e1, e2, e3, e4⟩
    · left
      show List.map Char.toLower [k0, k1, k2, k3, k4, '='] = cs "relay="
      simp only [List.map_cons, List.map_nil, e0, e1, e2, e3, e4]
      decide
    · right
      show List.map Char.toLower [k0, k1, k2, k3, k4, '='] = cs "snoop="
      simp only [List.map_cons, List.map_nil, e0, e1, e2, e3, e4]
      decide
  rcases hs with rfl | rfl
  · have hsi : signIdx ('+' :: ((k0 :: k1 :: k2 :: k3 :: k4 :: []) ++ '=' :: rest))
        = some 0 := by
      simp [signIdx, strchrIdx]
    rw [processDirective_module '+' _ hsi (by simp) hcond (by simpa using hall)]
    rfl
  · have hnm : '+' ∉ ('-' :: ((k0 :: k1 :: k2 :: k3 :: k4 :: []) ++ '=' :: rest)) := by
      intro hm
      rcases List.mem_cons.mp hm with h | hm
      · cases h
      · rw [List.mem_append] at hm
        rcases hm with hm | hm
        · exact hknp hm
        · rcases List.mem_cons.mp hm with h | hm
          · cases h
          · exact hr rfl hm
    have h0 := (strchrIdx_eq_none '+' _).mpr hnm
    have hsi : signIdx ('-' :: ((k0 :: k1 :: k2 :: k3 :: k4 :: []) ++ '=' :: rest))
        = some 0 := by
      rw [signIdx, h0]
      simp [strchrIdx]
    rw [processDirective_module '-' _ hsi (by simp) hcond (by simpa using hall)]
    rfl

/-- C3 witness: `+relay=USER32:KERNEL32` replaces the relay include list
and forwards the fall-through class call with selector `relay`. -/
theorem C3_module_directive_witness :
    processDirective ('+' :: (cs "relay" ++ '=' :: cs "USER32:KERNEL32")) =
      Except.ok [DbgCall.setList
                   (if (cs "relay").getD 0 ' ' = 'r' then Subsys.relay else Subsys.snoop)
                   (if '+' = '+' then ListPolarity.inc else ListPolarity.exc)
                   ((splitOnAny [':'] (cs "USER32:KERNEL32")).map strupr),
                 DbgCall.addOption (cs "relay") 255 0] :=
  C3_module_directive '+' (cs "relay") (cs "USER32:KERNEL32")
    (Or.inl rfl) (by decide) (by decide)

/-- C3 counterexample: processing `+relay=x` does not only replace the
relay include list — it also forwards a
(classes-to-set = all, classes-to-clear = none, selector = `relay`)
call to the diagnostic subsystem, refuting "forwards no call". -/
theorem C3_counterexample :
    processDirective (cs "+relay=x") =
      Except.ok [DbgCall.setList Subsys.relay ListPolarity.inc [cs "X"],
                 DbgCall.addOption (cs "relay") 255 0] := by
  decide

/-- C4 (amended): the split point is the first `+` when the directive
contains one, and only otherwise the first `-` (not the first of either
sign); and processing a directive fails exactly when there is no such
split point, or the text after it is empty, or a nonempty class-name
part does not match the class vocabulary. -/
theorem C4_split_point (opt : Tok) :
    (signIdx opt = if '+' ∈ opt then strchrIdx '+' opt else strchrIdx '-' opt) ∧
    (processDirective opt = Except.error () ↔
      signIdx opt = none ∨
      ∃ i, signIdx opt = some i ∧
        (opt.drop (i + 1) = [] ∨ (opt.take i ≠ [] ∧ classIdx (opt.take i) = none))) := by
  constructor
  · by_cases hp : '+' ∈ opt
    · rw [if_pos hp]
      rcases hs : strchrIdx '+' opt with _ | i
      · rw [strchrIdx_eq_none] at hs; exact absurd hp hs
      · rw [signIdx, hs]
    · rw [if_neg hp, signIdx, (strchrIdx_eq_none _ _).mpr hp]
  · rcases hs : signIdx opt with _ | i
    · simp [processDirective, hs]
    · have hr : ((some i : Option Nat) = none ∨ ∃ j, (some i : Option Nat) = some j ∧
          (opt.drop (j + 1) = [] ∨ (opt.take j ≠ [] ∧ classIdx (opt.take j) = none)))
          ↔ (opt.drop (i + 1) = [] ∨ (opt.take i ≠ [] ∧ classIdx (opt.take i) = none)) := by
        constructor
        · rintro (h | ⟨j, hj, h⟩)
          · cases h
          · rw [Option.some.injEq] at hj; subst hj; exact h
        · intro h; exact Or.inr ⟨i, rfl, h⟩
      rw [hr]
      simp only [processDirective, hs]
      by_cases hafter : opt.drop (i + 1) = []
      · rw [if_pos hafter]
        exact ⟨fun _ => Or.inl hafter, fun _ => rfl⟩
      · rw [if_neg hafter]
        by_cases hbefore : opt.take i = []
        · have hb2 : ¬ (opt.take i ≠ []) := fun hx => hx hbefore
          rw [if_neg hb2]
          constructor
          · intro h
            exfalso
            revert h
            split
            · exact fun h => Except.noConfusion h
            · exact fun h => Except.noConfusion h
          · rintro (h | ⟨hne, _⟩)
            · exact absurd h hafter
            · exact absurd hbefore hne
        · rw [if_pos (fun hx => hbefore hx)]
          rcases hcls : classIdx (opt.take i) with _ | k
          · exact ⟨fun _ => Or.inr ⟨hbefore, rfl⟩, fun _ => rfl⟩
          · constructor
            · intro h; exact Except.noConfusion h
            · rintro (h | ⟨_, hc⟩)
              · exact absurd h hafter
              · cases hc

/-- C4 counterexample: in the directive `a-b+` the first `+` or `-` from
the left is the `-` at index 1, with nonempty rest `b+`, so the claim
deems it well-split and not malformed; but the code splits at the first
`+` (index 3), whose rest is empty, and rejects the directive. -/
theorem C4_counterexample :
    spec_first_sign (cs "a-b+") = some 1 ∧
    (cs "a-b+").drop 2 ≠ [] ∧
    signIdx (cs "a-b+") = some 3 ∧
    processDirective (cs "a-b+") = Except.error () := by
  refine ⟨by decide, by decide, by decide, by decide⟩

/-- C5 (confirmed): a value-taking option matched as the last token of
argv (no following token, no inline value) invokes its handler exactly
once with the empty string, consumes exactly the one trigger token, and
the scan reports no error (the scanner is total; handler behaviour on
the empty value is the handler's own affair). -/
theorem C5_trailing_value_option (d : OptionDescr) (inh : Option Tok)
    (hd : d ∈ option_table) (ha : d.has_arg = true) :
    parse_options [dashdash d.longname] inh =
      ⟨[], [(d.longname, [])],
       if d.inherit then foldInherit inh [dashdash d.longname] else inh,
       [dashdash d.longname]⟩ := by
  fin_cases hd <;> first
    | exact absurd ha (by decide)
    | rfl

/-- C5 witness: `--dll` as the final token yields one dll invocation
with the empty value and consumes one token. -/
theorem C5_trailing_value_option_witness :
    parse_options [dashdash (⟨cs "dll", none, true, true⟩ : OptionDescr).longname] none =
      ⟨[], [((⟨cs "dll", none, true, true⟩ : OptionDescr).longname, [])],
       if (⟨cs "dll", none, true, true⟩ : OptionDescr).inherit then
         foldInherit none [dashdash (⟨cs "dll", none, true, true⟩ : OptionDescr).longname]
       else none,
       [dashdash (⟨cs "dll", none, true, true⟩ : OptionDescr).longname]⟩ :=
  C5_trailing_value_option ⟨cs "dll", none, true, true⟩ none (by decide) rfl

/-- C6 (amended): the replay is not buffer-neutral — `parse_options`
inside the replay calls the same `remove_options` with the descriptor's
inherit flag, so inheritable matches of the replay are folded into the
buffer again.  For a canonical inheritable-option string replayed into
an empty buffer, the buffer afterwards equals the folded pairs (the
replayed string itself), not the untouched prior buffer. -/
theorem C6_replay_refolds (ps : List (Tok × Tok))
    (h1 : ∀ p ∈ ps, p.1 ∈ inheritableNames)
    (h2 : ∀ p ∈ ps, p.2 ≠ [] ∧ ∀ c ∈ p.2, c ≠ ' ' ∧ c ≠ '\t')
    (h3 : 2 * ps.length ≤ 255) :
    (inherit_options (joinSpace (tokensOfPairs ps)) none).inherit = foldPairs none ps := by
  have hscan := scan_pairs ps none h1
  have hclean := tokensOfPairs_clean ps h1 h2
  have hjoin := strtokAll_joinSpace (tokensOfPairs ps) hclean
  have htake : (strtokAll [' ', '\t'] (joinSpace (tokensOfPairs ps))).take 255
      = tokensOfPairs ps := by
    rw [hjoin]
    exact List.take_of_length_le (by rw [tokensOfPairs_length]; exact h3)
  rw [inherit_options, htake, hscan]

/-- C6 witness: replaying `--dll foo` refolds the pair into the buffer. -/
theorem C6_replay_refolds_witness :
    (inherit_options (joinSpace (tokensOfPairs [(cs "dll", cs "foo")])) none).inherit
      = foldPairs none [(cs "dll", cs "foo")] :=
  C6_replay_refolds [(cs "dll", cs "foo")] (by decide) (by decide) (by decide)

/-- C6 counterexample: replaying the source string `--dll foo` completes
without error (no leftover token, no terminating handler), yet the
inheritance buffer is `some "--dll foo"` afterwards instead of the
`none` it was before the replay — the buffer is not built only from the
live command-line pass. -/
theorem C6_counterexample :
    (inherit_options (cs "--dll foo") none).argv = [] ∧
    runTrace (inherit_options (cs "--dll foo") none).trace = Except.ok () ∧
    (inherit_options (cs "--dll foo") none).inherit = some (cs "--dll foo") ∧
    (inherit_options (cs "--dll foo") none).inherit ≠ none := by
  refine ⟨by decide, by decide, by decide, by decide⟩

/-- C7 (confirmed): `+all,warn-heap` emits exactly two directives in
order — all class bits (255) set for the empty selector, then the warn
bit (4) cleared for selector `heap`; and both `foo` (no sign) and `+`
(empty rest) are syntax errors that terminate the process with exit
code 1. -/
theorem C7_filter_examples :
    do_debugmsg (cs "+all,warn-heap") =
      Except.ok [DbgCall.addOption [] 255 0, DbgCall.addOption (cs "heap") 0 4] ∧
    OPTIONS_ParseOptions none [cs "--debugmsg", cs "foo"] = Except.error 1 ∧
    OPTIONS_ParseOptions none [cs "--debugmsg", cs "+"] = Except.error 1 := by
  refine ⟨by decide, by decide, by decide⟩

/-- C8 (confirmed): `+relay=USER32:KERNEL32` replaces the relay
include list with the freshly built list `[USER32, KERNEL32]` (split on
`:`, upper-cased; the C NULL end marker is the end of the Lean list). -/
theorem C8_relay_modules :
    do_debugmsg (cs "+relay=USER32:KERNEL32") =
      Except.ok [DbgCall.setList Subsys.relay ListPolarity.inc
                   [cs "USER32", cs "KERNEL32"],
                 DbgCall.addOption (cs "relay") 255 0] := by
  decide

/-- C9 (confirmed): after a full pass the argument vector is a
subsequence of the input (original relative order), the consumed tokens
and the kept tokens together are exactly the input tokens, and an argv
with no `-`-prefixed token is left unchanged with no handler invoked. -/
theorem C9_scan_invariant (argv : List Tok) (inh : Option Tok) :
    ((parse_options argv inh).argv).Sublist argv ∧
    ((parse_options argv inh).eaten ++ (parse_options argv inh).argv).Perm argv ∧
    ((∀ t ∈ argv, t.head? ≠ some '-') → parse_options argv inh = ⟨argv, [], inh, []⟩) :=
  ⟨parse_argv_sublist argv inh, parse_eaten_perm argv inh, parse_no_dash argv inh⟩

/-- C9 witness: a dash-free argv is unchanged and fires no handler. -/
theorem C9_scan_invariant_witness :
    parse_options [cs "app.exe"] none = ⟨[cs "app.exe"], [], none, []⟩ :=
  (C9_scan_invariant [cs "app.exe"] none).2.2 (by decide)

/-- C10 (confirmed): the filter handler on the empty string hits the
syntax-error path (strtok finds no first token) and exits with code 1;
hence `--debugmsg` as the final token (whose missing value defaults to
the empty string) and `--debugmsg=` (empty inline value) both terminate
the process with exit code 1 despite the missing-value leniency. -/
theorem C10_empty_filter_fatal :
    do_debugmsg ([] : Tok) = Except.error () ∧
    OPTIONS_ParseOptions none [cs "--debugmsg"] = Except.error 1 ∧
    OPTIONS_ParseOptions none [cs "--debugmsg="] = Except.error 1 := by
  refine ⟨by decide, by decide, by decide⟩

end WineOptions
